import Mathlib

/-!
Verification development for the `liris_fold_fabric_triangle` dataset builder
(`liris_fold_fabric_triangle.py`).  The episode-assembly pipeline
(`_generate_examples` / `_parse_example`) and the path discovery
(`_split_paths`) are shallowly embedded.

Modelling conventions:
* Python values flowing through the assembler (nested dicts, numpy scalars,
  1-D numeric arrays, H×W×C image arrays) are embedded in the inductive
  `PyVal`.  Numeric payloads are `Int`: the assembler performs no arithmetic
  on them, only exact `== 0` comparisons, lookups and concatenation, so the
  carrier only needs decidable equality.
* Every operation in the source's big `try:` block that can raise
  (`KeyError`, `IndexError`, `AssertionError`, numpy/PIL `TypeError` or
  `ValueError`) is an `Option`-valued operation; `none` models "an exception
  was raised and caught by the bare `except:`".  `_parse_example` maps the
  two `except:` handlers to `Except` errors carrying the skip reason and the
  offending path, mirroring the two printed diagnostics.
* External collaborators are parameters: the trajectory loader
  (`load_trajectory`, from the out-of-scope utils module), PIL's
  `Image.resize` (`pilResize`, whose bicubic interpolation is opaque; only
  its dimensional contract `PilOk` is used), the directory crawler,
  `os.path.exists` and `datetime.strptime`.
* `np.array([x])` (`npArray1`) is modelled only for scalar `x`; for a
  non-scalar it would build a rank≥2 array that this value model does not
  represent and that the serializer's fixed `(1,)` schema rejects downstream,
  so such inputs are mapped to `none`.
-/

namespace LirisFold

/-- An H×W×C image array: rows of pixels, each pixel a list of channels. -/
abbrev Img := List (List (List Int))

/-- Embedded Python values handled by the assembler: numeric scalars, 1-D
numeric arrays, image arrays, and string-keyed dicts. -/
inductive PyVal where
  | num (x : Int)
  | vec (v : List Int)
  | image (m : Img)
  | dict (d : List (String × PyVal))

/-- First-match lookup in an association list, modelling Python dict
indexing (`d[k]`); Python dicts have unique keys, so first-match agrees. -/
def lookupStr : List (String × PyVal) → String → Option PyVal
  | [], _ => none
  | (k, v) :: rest, key => if k = key then some v else lookupStr rest key

/-- Replace the value at a key, modelling Python `d[k] = v` (insertion order
of an existing key is preserved; a fresh key is appended). -/
def dSet : List (String × PyVal) → String → PyVal → List (String × PyVal)
  | [], key, x => [(key, x)]
  | (k, v) :: rest, key, x =>
      if k = key then (key, x) :: rest else (k, v) :: dSet rest key x

/-- Python `d[k]`: `none` models `KeyError` (missing key) and `TypeError`
(indexing a non-dict). -/
def dGet : PyVal → String → Option PyVal
  | .dict d, k => lookupStr d k
  | _, _ => none

/-- Python `d[k] = x` on an embedded value: `none` models the `TypeError`
raised by item assignment on a non-dict. -/
def dSetV : PyVal → String → PyVal → Option PyVal
  | .dict d, k, x => some (.dict (dSet d k x))
  | _, _, _ => none

/-- Python `d.keys()` as a list (in insertion order); `none` models the
`AttributeError` of calling `.keys()` on a non-dict. -/
def dKeys : PyVal → Option (List String)
  | .dict d => some (d.map Prod.fst)
  | _ => none

/-- The underlying association list of a dict; `none` models the exception
raised when a dict operation (such as `.items()`) hits a non-dict. -/
def asDict : PyVal → Option (List (String × PyVal))
  | .dict d => some d
  | _ => none

/-- A 1-D numeric array; `none` where numpy would reject another rank. -/
def asVec : PyVal → Option (List Int)
  | .vec v => some v
  | _ => none

/-- A numeric scalar; `none` where a scalar is required but absent. -/
def asNum : PyVal → Option Int
  | .num x => some x
  | _ => none

/-- An image array; `none` models `PIL.Image.fromarray` raising on a
non-array argument. -/
def asImage : PyVal → Option Img
  | .image m => some m
  | _ => none

/-- Equality of Python `dict_keys` views: set equality of the key lists. -/
def keySetEq (a b : List String) : Bool :=
  a.all (fun k => b.contains k) && b.all (fun k => a.contains k)

/-- Truthiness of the Python expression `v == 0` as used in the
comprehension filters over `camera_type` values.  A scalar compares
directly; a 1-D array yields an array whose truthiness is defined only for
size ≤ 1 (`none` models the `ValueError` for larger sizes); comparing a
dict to `0` is plain `False`.  Multi-pixel image arrays are likewise
ambiguous. -/
def pyEqZero : PyVal → Option Bool
  | .num x => some (x == 0)
  | .vec [] => some false
  | .vec [x] => some (x == 0)
  | .vec _ => none
  | .image _ => none
  | .dict _ => some false

/-- The no-op test `(arr == 0).all()`: defined for numpy arrays
(elementwise comparison then `.all()`); `none` models the
`AttributeError` of `.all()` on the plain `bool` produced by a non-array
operand. -/
def npEqZeroAll : PyVal → Option Bool
  | .vec v => some (v.all (fun x => x == 0))
  | .image m => some (m.all (fun r => r.all (fun p => p.all (fun x => x == 0))))
  | _ => none

/-- `np.array([x])`: wraps a scalar into a 1-element 1-D array.  See the
module comment for the non-scalar case. -/
def npArray1 : PyVal → Option PyVal
  | .num x => some (.vec [x])
  | _ => none

/-- `[..., ::-1]`: reverse the last axis (the channel order of an image,
or a 1-D array); `none` models the `IndexError` on a 0-d operand. -/
def revLast : PyVal → Option PyVal
  | .vec v => some (.vec v.reverse)
  | .image m => some (.image (m.map (fun row => row.map List.reverse)))
  | _ => none

/-- `List.head?`-style selection for `ids[0]`; `none` models `IndexError`. -/
def listHead : List String → Option String
  | [] => none
  | k :: _ => some k

/-- Exception-propagating sequencing (plain `Option.bind`, spelled out so
the code generator keeps the chains linear). -/
def bindO (x : Option α) (f : α → Option β) : Option β :=
  match x with
  | none => none
  | some a => f a

/-- Option-valued `mapM` over a list, written out for easy induction. -/
def mapOpt (f : α → Option β) : List α → Option (List β)
  | [] => some []
  | a :: rest =>
      match f a with
      | none => none
      | some b =>
          match mapOpt f rest with
          | none => none
          | some bs => some (b :: bs)

/-! ## Source constants (module-level configuration of the builder) -/

/-- Fixed language instruction of the builder. -/
def LANGUAGE_INSTRUCTION : String := "Fold the fabric into a triangle"

/-- Root of the raw DROID MP4 data. -/
def DATA_PATH : String := "/home/panda/liris_droid/data/success"

/-- Configured output resolution as (height, width). -/
def IMAGE_RES : Nat × Nat := (360, 640)

/-- Whether steps with an all-zero commanded cartesian velocity are dropped. -/
def FILTER_NO_OPS : Bool := true

/-- Configuration surface of the pipeline.  The source hard-codes
`IMAGE_RES` and `FILTER_NO_OPS` as module constants and calls PIL through
`Image.resize`; they are gathered here so the claims about either flag
value and about the resize contract can be stated. -/
structure Config where
  pilResize : Img → Nat × Nat → Img
  filter_no_ops : Bool
  image_res : Nat × Nat

/-- PIL's dimensional contract for `Image.resize(size, resample=BICUBIC)`:
called with `size = (width, height)`, the returned array has `height` rows
of `width` pixels of 3 channels.  The interpolation itself is external. -/
def imgHasShape (m : Img) (h w c : Nat) : Bool :=
  m.length == h &&
    m.all (fun row => row.length == w && row.all (fun px => px.length == c))

/-- A resize backend honouring PIL's dimensional contract. -/
def PilOk (cfg : Config) : Prop :=
  ∀ m s, imgHasShape (cfg.pilResize m s) s.2 s.1 3 = true

/-- `_resize_and_encode(image, size)`: `Image.fromarray` then
`image.resize(size, resample=Image.BICUBIC)` then `np.array`.  `none`
models `fromarray` raising on a non-array input. -/
def _resize_and_encode (cfg : Config) (v : PyVal) (size : Nat × Nat) : Option PyVal :=
  match v with
  | .image m => some (.image (cfg.pilResize m size))
  | _ => none

/-! ## The episode assembler (`_parse_example`) -/

/-- One step of the assembled output episode, in the fixed output schema
declared by `_info`. -/
structure OutStep where
  exterior_image_1_left : PyVal
  wrist_image_left : PyVal
  cartesian_position : PyVal
  joint_position : PyVal
  gripper_position : PyVal
  action_dict_cartesian_position : PyVal
  action_dict_cartesian_velocity : PyVal
  action_dict_gripper_position : PyVal
  action_dict_gripper_velocity : PyVal
  action_dict_joint_position : PyVal
  action_dict_joint_velocity : PyVal
  action : List Int
  discount : Int
  reward : Int
  is_first : Bool
  is_last : Bool
  is_terminal : Bool
  language_instruction : String

/-- The emitted sample: the step list plus episode metadata. -/
structure Sample where
  steps : List OutStep
  file_path : String
  recording_folderpath : String

/-- `t.keys() == data[0].keys()` for one step `t` of the generator inside
the `assert`: `none` models `.keys()` raising on a non-dict. -/
def checkOne (d0 t : PyVal) : Option Bool :=
  match dKeys t with
  | none => none
  | some kt =>
      match dKeys d0 with
      | none => none
      | some k0 => some (keySetEq kt k0)

/-- Walk the generator of the `assert`: stop with `none` (AssertionError or
a raised comparison) as soon as a step fails. -/
def checkKeysAux (d0 : PyVal) : List PyVal → Option Unit
  | [] => some ()
  | t :: rest =>
      match checkOne d0 t with
      | none => none
      | some false => none
      | some true => checkKeysAux d0 rest

/-- `assert all(t.keys() == data[0].keys() for t in data)`: vacuously true
on an empty `data` (the generator never evaluates `data[0]`). -/
def checkKeys : List PyVal → Option Unit
  | [] => some ()
  | d0 :: rest => checkKeysAux d0 (d0 :: rest)

/-- The inner resize loop body applied over the first step's image keys:
`data[t]['observation']['image'][key] = _resize_and_encode(..., (IMAGE_RES[1], IMAGE_RES[0]))`. -/
def resizeImages (cfg : Config) : PyVal → List String → Option PyVal
  | im, [] => some im
  | im, k :: ks =>
      bindO (dGet im k) fun v =>
      bindO (asImage v) fun m =>
      bindO (dSetV im k
        (.image (cfg.pilResize m (cfg.image_res.2, cfg.image_res.1)))) fun im2 =>
      resizeImages cfg im2 ks

/-- Resize every listed camera image of one step, rebuilding the nested
dicts (the source mutates them in place). -/
def resizeStep (cfg : Config) (keys : List String) (t : PyVal) : Option PyVal :=
  bindO (dGet t "observation") fun obs =>
  bindO (dGet obs "image") fun im =>
  bindO (resizeImages cfg im keys) fun im2 =>
  bindO (dSetV obs "image" im2) fun obs2 =>
  dSetV t "observation" obs2

/-- `data[0]['observation']['image'].keys()`, the key list driving the
resize loop (constant across iterations: the loop replaces values only). -/
def imageKeysOf (t : PyVal) : Option (List String) :=
  bindO (dGet t "observation") fun obs =>
  bindO (dGet obs "image") fun im =>
  dKeys im

/-- The full resize pass (`for t in range(len(data)): for key in ...`).
On empty `data` the loops never run. -/
def resizeAll (cfg : Config) (data : List PyVal) : Option (List PyVal) :=
  match data with
  | [] => some []
  | d0 :: _ =>
      match imageKeysOf d0 with
      | none => none
      | some keys => mapOpt (resizeStep cfg keys) data

/-- The per-step no-op test
`(step['action']['cartesian_velocity'] == 0).all()`. -/
def isNoOp (step : PyVal) : Option Bool :=
  bindO (dGet step "action") fun act =>
  bindO (dGet act "cartesian_velocity") fun v =>
  npEqZeroAll v

/-- `[k for k, v in camera_type_dict.items() if v == 0]` (`wantZero = true`)
and `[k for k, v in ... if v != 0]` (`wantZero = false`); a `v` whose
`== 0` truthiness raises aborts the comprehension. -/
def selectIds (wantZero : Bool) : List (String × PyVal) → Option (List String)
  | [] => some []
  | (k, v) :: rest =>
      bindO (pyEqZero v) fun b =>
      bindO (selectIds wantZero rest) fun tail =>
      some (if b == wantZero then k :: tail else tail)

/-- Assemble one retained step into the output schema (the dict literal of
the `episode.append` call, lines 71–94 of the source). -/
def buildStep (step : PyVal) : Option OutStep :=
  bindO (dGet step "observation") fun obs =>
  bindO (dGet step "action") fun act =>
  bindO (dGet obs "camera_type") fun ct =>
  bindO (asDict ct) fun ctd =>
  bindO (selectIds true ctd) fun wrist_ids =>
  bindO (selectIds false ctd) fun exterior_ids =>
  bindO (dGet obs "image") fun im =>
  bindO (listHead exterior_ids) fun eId =>
  bindO (dGet im (eId ++ "_left")) fun eImgRaw =>
  bindO (revLast eImgRaw) fun eImg =>
  bindO (listHead wrist_ids) fun wId =>
  bindO (dGet im (wId ++ "_left")) fun wImgRaw =>
  bindO (revLast wImgRaw) fun wImg =>
  bindO (dGet obs "robot_state") fun rs =>
  bindO (dGet rs "cartesian_position") fun ocp =>
  bindO (dGet rs "joint_positions") fun ojp =>
  bindO (dGet rs "gripper_position") fun ogpRaw =>
  bindO (npArray1 ogpRaw) fun ogp =>
  bindO (dGet act "cartesian_position") fun adcp =>
  bindO (dGet act "cartesian_velocity") fun adcv =>
  bindO (dGet act "gripper_position") fun adgpRaw =>
  bindO (npArray1 adgpRaw) fun adgp =>
  bindO (dGet act "gripper_velocity") fun adgvRaw =>
  bindO (npArray1 adgvRaw) fun adgv =>
  bindO (dGet act "joint_position") fun adjp =>
  bindO (dGet act "joint_velocity") fun adjv =>
  bindO (asVec adcp) fun cp =>
  bindO (asNum adgpRaw) fun g =>
  some {
    exterior_image_1_left := eImg
    wrist_image_left := wImg
    cartesian_position := ocp
    joint_position := ojp
    gripper_position := ogp
    action_dict_cartesian_position := adcp
    action_dict_cartesian_velocity := adcv
    action_dict_gripper_position := adgp
    action_dict_gripper_velocity := adgv
    action_dict_joint_position := adjp
    action_dict_joint_velocity := adjv
    action := cp ++ [g]
    discount := 1
    reward := 0
    is_first := false
    is_last := false
    is_terminal := false
    language_instruction := LANGUAGE_INSTRUCTION }

/-- The assembly loop: drop no-op steps when the filter is enabled (the
`and` short-circuits, so the no-op test only runs when the flag is set),
otherwise append the assembled step. -/
def assembleSteps (flag : Bool) : List PyVal → Option (List OutStep)
  | [] => some []
  | step :: rest =>
      match (if flag then isNoOp step else some false) with
      | none => none
      | some true => assembleSteps flag rest
      | some false =>
          match buildStep step with
          | none => none
          | some s =>
              match assembleSteps flag rest with
              | none => none
              | some tail => some (s :: tail)

/-- `episode[-1]["is_last"] = True; episode[-1]["is_terminal"] = True;
episode[-1]["reward"] = 1.0` as a pure update of the last element. -/
def setLast : List OutStep → List OutStep
  | [] => []
  | [s] => [{ s with is_last := true, is_terminal := true, reward := 1 }]
  | s :: s2 :: rest => s :: setLast (s2 :: rest)

/-- Lines 96–99: first mark `episode[0]`, then `episode[-1]` (on a
singleton both hit the same element, as with Python's in-place mutation);
`none` models the `IndexError` on an empty episode. -/
def setFlags : List OutStep → Option (List OutStep)
  | [] => none
  | s :: rest => some (setLast ({ s with is_first := true } :: rest))

/-- Why a path is skipped: the two diagnostic prints of `_parse_example`. -/
inductive SkipReason where
  | load_failed
  | processing_error
deriving DecidableEq

/-- `os.path.join(episode_path, 'trajectory.h5')`. -/
def h5Path (episode_path : String) : String := episode_path ++ "/trajectory.h5"

/-- `os.path.join(episode_path, 'recordings', 'MP4')`. -/
def recPath (episode_path : String) : String := episode_path ++ "/recordings/MP4"

/-- Everything inside the second `try:` of `_parse_example`: key check,
resize pass, assembly loop, boundary flags. -/
def parseBody (cfg : Config) (data : List PyVal) : Option (List OutStep) :=
  bindO (checkKeys data) fun _ =>
  bindO (resizeAll cfg data) fun resized =>
  bindO (assembleSteps cfg.filter_no_ops resized) fun episode =>
  setFlags episode

/-- `_parse_example(episode_path)`.  The loader is an external parameter;
`none` from it models any exception caught by the first `except:`.  The
`Except.error` values stand for the printed skip + `return None`. -/
def _parse_example (cfg : Config)
    (load : String → String → Option (List PyVal)) (episode_path : String) :
    Except (SkipReason × String) (String × Sample) :=
  match load (h5Path episode_path) (recPath episode_path) with
  | none => .error (.load_failed, episode_path)
  | some data =>
      match parseBody cfg data with
      | none => .error (.processing_error, episode_path)
      | some episode =>
          .ok (episode_path,
            { steps := episode
              file_path := h5Path episode_path
              recording_folderpath := recPath episode_path })

/-- `_generate_examples(paths)`: single-threaded loop yielding
`_parse_example(sample)` for every path (`None` results included). -/
def _generate_examples (cfg : Config)
    (load : String → String → Option (List PyVal)) (paths : List String) :
    List (Except (SkipReason × String) (String × Sample)) :=
  paths.map (_parse_example cfg load)

/-- Whether a parse result is an emitted record (non-`None`). -/
def isEmitted (r : Except (SkipReason × String) (String × Sample)) : Bool :=
  match r with
  | .ok _ => true
  | .error _ => false

/-- The step list of an emitted record (empty for a skip). -/
def resultSteps (r : Except (SkipReason × String) (String × Sample)) : List OutStep :=
  match r with
  | .ok (_, s) => s.steps
  | .error _ => []

/-! ## Path discovery (`_split_paths`) -/

/-- A `datetime.datetime` value (microseconds unused by this builder). -/
structure PyDateTime where
  year : Nat
  month : Nat
  day : Nat
  hour : Nat
  minute : Nat
  second : Nat
deriving DecidableEq

/-- The comparison key of a datetime; Python compares datetimes
lexicographically on these fields. -/
def dtList (a : PyDateTime) : List Nat :=
  [a.year, a.month, a.day, a.hour, a.minute, a.second]

/-- Lexicographic `≤` on equal-length numeric lists. -/
def natListLe : List Nat → List Nat → Bool
  | [], _ => true
  | _ :: _, [] => false
  | a :: as, b :: bs => a < b || (a == b && natListLe as bs)

/-- `datetime.datetime(a) <= datetime.datetime(b)`. -/
def dtLe (a b : PyDateTime) : Bool := natListLe (dtList a) (dtList b)

/-- `INITIAL_DATE = datetime.datetime(2025, 3, 18, 9, 55, 00)`; the claims
treat the bound as nullable, `none` disabling it. -/
def INITIAL_DATE : Option PyDateTime := some ⟨2025, 3, 18, 9, 55, 0⟩

/-- `FINAL_DATE = datetime.datetime(2025, 3, 18, 11, 00, 00)`. -/
def FINAL_DATE : Option PyDateTime := some ⟨2025, 3, 18, 11, 0, 0⟩

/-- Split a character list at `/`, accumulator-style. -/
def splitSlashAux : List Char → List Char → List (List Char)
  | [], acc => [acc.reverse]
  | c :: rest, acc =>
      if c = '/' then acc.reverse :: splitSlashAux rest []
      else splitSlashAux rest (c :: acc)

/-- `e.split("/")[-1]`: the trailing path component (the session
directory name). -/
def sessionName (e : String) : String :=
  String.mk ((splitSlashAux e.toList []).getLastD [])

/-- One date-bound list comprehension of `_split_paths`: `strptime` failure
(a name that does not parse) raises out of the comprehension, modelled by
`none` for the whole call. -/
def filterByDate (strptime : String → Option PyDateTime)
    (keep : PyDateTime → Bool) : List String → Option (List String)
  | [] => some []
  | e :: rest =>
      bindO (strptime (sessionName e)) fun d =>
      bindO (filterByDate strptime keep rest) fun tail =>
      some (if keep d then e :: tail else tail)

/-- `_split_paths` minus the fixed `train` wrapper: crawl (external),
keep directories having both `trajectory.h5` and `recordings/MP4` (the
source concatenates with `+ '/...'`), then apply the two inclusive,
individually nullable date bounds. -/
def _split_paths (crawl : List String) (osPathExists : String → Bool)
    (strptime : String → Option PyDateTime)
    (initial final : Option PyDateTime) : Option (List String) :=
  let ps := crawl.filter (fun p =>
    osPathExists (p ++ "/trajectory.h5") && osPathExists (p ++ "/recordings/MP4"))
  bindO
    (match initial with
     | none => some ps
     | some d0 => filterByDate strptime (fun d => dtLe d0 d) ps) fun ps2 =>
  match final with
  | none => some ps2
  | some d1 => filterByDate strptime (fun d => dtLe d d1) ps2

/-! ## Helper definitions for the statements and witnesses -/

/-- The update `episode[0]["is_first"] = True` applied to one step. -/
def firstify (s : OutStep) : OutStep := { s with is_first := true }

/-- The three updates applied to `episode[-1]`. -/
def lastify (s : OutStep) : OutStep :=
  { s with is_last := true, is_terminal := true, reward := 1 }

/-- A concrete resize backend honouring PIL's dimensional contract (the
pixel content stands in for the external bicubic interpolation). -/
def pil0 : Img → Nat × Nat → Img :=
  fun _ s => List.replicate s.2 (List.replicate s.1 [0, 0, 0])

/-- A small concrete configuration for witnesses (tiny resolution so the
kernel can evaluate full pipeline runs). -/
def cfg0 : Config := { pilResize := pil0, filter_no_ops := true, image_res := (1, 2) }

/-- A 1×1 RGB input frame. -/
def img0 : Img := [[[1, 2, 3]]]

/-- A 2×1 RGB input frame of a different size. -/
def img1 : Img := [[[7, 8, 9]], [[4, 5, 6]]]

/-- A well-formed raw step (the loader's per-timestep dict) with the given
commanded cartesian velocity. -/
def mkRawStep (vel : List Int) : PyVal := .dict [
  ("observation", .dict [
     ("image", .dict [("cam1_left", .image img0), ("cam0_left", .image img1)]),
     ("camera_type", .dict [("cam0", .num 0), ("cam1", .num 1)]),
     ("robot_state", .dict [
        ("cartesian_position", .vec [1, 2, 3, 4, 5, 6]),
        ("joint_positions", .vec [1, 2, 3, 4, 5, 6, 7]),
        ("gripper_position", .num 9)])]),
  ("action", .dict [
     ("cartesian_position", .vec [10, 20, 30, 40, 50, 60]),
     ("cartesian_velocity", .vec vel),
     ("gripper_position", .num 5),
     ("gripper_velocity", .num 0),
     ("joint_position", .vec [1, 2, 3, 4, 5, 6, 7]),
     ("joint_velocity", .vec [1, 2, 3, 4, 5, 6, 7])])]

/-- A loader returning two well-formed steps with non-zero velocities. -/
def loadW : String → String → Option (List PyVal) :=
  fun _ _ => some [mkRawStep [1, 0, 0, 0, 0, 0], mkRawStep [2, 0, 0, 0, 0, 0]]

/-- A loader returning one well-formed step with non-zero velocity. -/
def loadOne : String → String → Option (List PyVal) :=
  fun _ _ => some [mkRawStep [1, 0, 0, 0, 0, 0]]

/-- A loader returning a single step whose commanded velocity is zero
everywhere (an all-no-op trajectory). -/
def loadAllNoOp : String → String → Option (List PyVal) :=
  fun _ _ => some [mkRawStep [0, 0, 0, 0, 0, 0]]

/-- A raw step like `mkRawStep` but whose observation dict carries an
additional key `extra`: its top-level keys still match, its observation
keys do not. -/
def rawStepExtraObsKey : PyVal := .dict [
  ("observation", .dict [
     ("image", .dict [("cam1_left", .image img0), ("cam0_left", .image img1)]),
     ("camera_type", .dict [("cam0", .num 0), ("cam1", .num 1)]),
     ("robot_state", .dict [
        ("cartesian_position", .vec [1, 2, 3, 4, 5, 6]),
        ("joint_positions", .vec [1, 2, 3, 4, 5, 6, 7]),
        ("gripper_position", .num 9)]),
     ("extra", .num 0)]),
  ("action", .dict [
     ("cartesian_position", .vec [10, 20, 30, 40, 50, 60]),
     ("cartesian_velocity", .vec [1, 0, 0, 0, 0, 0]),
     ("gripper_position", .num 5),
     ("gripper_velocity", .num 0),
     ("joint_position", .vec [1, 2, 3, 4, 5, 6, 7]),
     ("joint_velocity", .vec [1, 2, 3, 4, 5, 6, 7])])]

/-- Loader for the observation-key-mismatch scenario: the second step has
an extra observation key, the top-level keys agree. -/
def loadExtraObsKey : String → String → Option (List PyVal) :=
  fun _ _ => some [mkRawStep [1, 0, 0, 0, 0, 0], rawStepExtraObsKey]

/-- A raw step whose image dict carries a camera `cam2` that the first
step does not have, and whose camera-type dict selects `cam2` as the
exterior camera.  `cam2_left` is never resized by the resize pass (which
iterates over the first step's keys) yet is emitted. -/
def rawStepExtraCamera : PyVal := .dict [
  ("observation", .dict [
     ("image", .dict [("cam1_left", .image img0), ("cam0_left", .image img1),
        ("cam2_left", .image img0)]),
     ("camera_type", .dict [("cam0", .num 0), ("cam2", .num 1)]),
     ("robot_state", .dict [
        ("cartesian_position", .vec [1, 2, 3, 4, 5, 6]),
        ("joint_positions", .vec [1, 2, 3, 4, 5, 6, 7]),
        ("gripper_position", .num 9)])]),
  ("action", .dict [
     ("cartesian_position", .vec [10, 20, 30, 40, 50, 60]),
     ("cartesian_velocity", .vec [1, 0, 0, 0, 0, 0]),
     ("gripper_position", .num 5),
     ("gripper_velocity", .num 0),
     ("joint_position", .vec [1, 2, 3, 4, 5, 6, 7]),
     ("joint_velocity", .vec [1, 2, 3, 4, 5, 6, 7])])]

/-- Loader for the unresized-extra-camera scenario. -/
def loadExtraCamera : String → String → Option (List PyVal) :=
  fun _ _ => some [mkRawStep [1, 0, 0, 0, 0, 0], rawStepExtraCamera]

/-- Whether both emitted images of a step are arrays of the given
height×width×3 shape. -/
def stepImagesHaveShape (s : OutStep) (h w : Nat) : Bool :=
  (match s.exterior_image_1_left with
   | .image m => imgHasShape m h w 3
   | _ => false) &&
  (match s.wrist_image_left with
   | .image m => imgHasShape m h w 3
   | _ => false)

/-- A loader that fails (raises) exactly on the files of episode path
`a`, behaving like `loadW` elsewhere. -/
def loadFailA : String → String → Option (List PyVal) :=
  fun x y => if x = "a/trajectory.h5" then none else loadW x y

/-- Session directory names for the date-filter scenario
(format `%a_%b_%d_%H:%M:%S_%Y`). -/
def dirTen : String := "root/Tue_Mar_18_10:00:00_2025"

/-- The 08:00 session directory. -/
def dirEight : String := "root/Tue_Mar_18_08:00:00_2025"

/-- The 11:00 session directory (exactly the final bound). -/
def dirEleven : String := "root/Tue_Mar_18_11:00:00_2025"

/-- A concrete `datetime.strptime` table for the three session names. -/
def strptime0 : String → Option PyDateTime := fun s =>
  if s = "Tue_Mar_18_10:00:00_2025" then some ⟨2025, 3, 18, 10, 0, 0⟩
  else if s = "Tue_Mar_18_08:00:00_2025" then some ⟨2025, 3, 18, 8, 0, 0⟩
  else if s = "Tue_Mar_18_11:00:00_2025" then some ⟨2025, 3, 18, 11, 0, 0⟩
  else none

/-- An `os.path.exists` that is true everywhere. -/
def existsAll : String → Bool := fun _ => true

/-- An `os.path.exists` under which directory `bad` lacks
`recordings/MP4` but has `trajectory.h5`. -/
def existsNoMp4 : String → Bool := fun s => !(s == "bad/recordings/MP4")

/-! ## Basic lemmas about the embedded operations -/

theorem bindO_eq_some {x : Option α} {f : α → Option β} {b : β} :
    bindO x f = some b ↔ ∃ a, x = some a ∧ f a = some b := by
  cases x <;> simp [bindO]

theorem bindO_none {f : α → Option β} : bindO none f = none := rfl

theorem bindO_some {a : α} {f : α → Option β} : bindO (some a) f = f a := rfl

theorem asNum_eq_some {v : PyVal} {x : Int} : asNum v = some x ↔ v = .num x := by
  cases v <;> simp [asNum]

theorem asVec_eq_some {v : PyVal} {l : List Int} : asVec v = some l ↔ v = .vec l := by
  cases v <;> simp [asVec]

theorem asImage_eq_some {v : PyVal} {m : Img} : asImage v = some m ↔ v = .image m := by
  cases v <;> simp [asImage]

theorem asDict_eq_some {v : PyVal} {d : List (String × PyVal)} :
    asDict v = some d ↔ v = .dict d := by
  cases v <;> simp [asDict]

theorem npArray1_eq_some {v w : PyVal} :
    npArray1 v = some w ↔ ∃ x, v = .num x ∧ w = .vec [x] := by
  cases v <;> simp [npArray1, eq_comm]

theorem lookupStr_mem_keys {d : List (String × PyVal)} {k : String} {v : PyVal}
    (h : lookupStr d k = some v) : k ∈ d.map Prod.fst := by
  induction d with
  | nil => simp [lookupStr] at h
  | cons kv rest ih =>
      obtain ⟨k1, v1⟩ := kv
      by_cases hk : k1 = k
      · subst hk; simp
      · simp only [lookupStr, if_neg hk] at h
        simpa using Or.inr (ih h)

theorem dGet_mem_dKeys {x : PyVal} {k : String} {v : PyVal} {ks : List String}
    (h : dGet x k = some v) (hk : dKeys x = some ks) : k ∈ ks := by
  cases x <;> simp [dGet, dKeys] at h hk
  subst hk
  exact lookupStr_mem_keys h

theorem lookupStr_dSet_self {d : List (String × PyVal)} {k : String} {v : PyVal} :
    lookupStr (dSet d k v) k = some v := by
  induction d with
  | nil => simp [dSet, lookupStr]
  | cons kv rest ih =>
      obtain ⟨k1, v1⟩ := kv
      by_cases hk : k1 = k
      · subst hk; simp [dSet, lookupStr]
      · simp [dSet, lookupStr, hk, ih]

theorem lookupStr_dSet_ne {d : List (String × PyVal)} {k k2 : String} {v : PyVal}
    (h : k2 ≠ k) : lookupStr (dSet d k v) k2 = lookupStr d k2 := by
  induction d with
  | nil => simp [dSet, lookupStr, Ne.symm h]
  | cons kv rest ih =>
      obtain ⟨k1, v1⟩ := kv
      by_cases hk : k1 = k
      · subst hk
        simp [dSet, lookupStr, Ne.symm h]
      · simp [dSet, lookupStr, hk, ih]

theorem dGet_dSetV_self {x x2 v : PyVal} {k : String}
    (h : dSetV x k v = some x2) : dGet x2 k = some v := by
  cases x <;> simp [dSetV] at h
  subst h
  simp [dGet, lookupStr_dSet_self]

theorem dGet_dSetV_ne {x x2 v : PyVal} {k k2 : String}
    (h : dSetV x k v = some x2) (hne : k2 ≠ k) : dGet x2 k2 = dGet x k2 := by
  cases x <;> simp [dSetV] at h
  subst h
  simp [dGet, lookupStr_dSet_ne hne]

theorem mapOpt_mem {f : α → Option β} {l : List α} {l2 : List β}
    (h : mapOpt f l = some l2) : ∀ b ∈ l2, ∃ a ∈ l, f a = some b := by
  induction l generalizing l2 with
  | nil =>
      simp only [mapOpt, Option.some.injEq] at h
      subst h; simp
  | cons a rest ih =>
      simp only [mapOpt] at h
      cases hfa : f a with
      | none => rw [hfa] at h; exact absurd h (by simp)
      | some b0 =>
          rw [hfa] at h
          cases hrest : mapOpt f rest with
          | none => rw [hrest] at h; exact absurd h (by simp)
          | some bs =>
              rw [hrest] at h
              simp only [Option.some.injEq] at h
              subst h
              intro b hb
              rcases List.mem_cons.mp hb with hb | hb
              · exact ⟨a, by simp, hb ▸ hfa⟩
              · obtain ⟨a2, ha2, hfa2⟩ := ih hrest b hb
                exact ⟨a2, by simp [ha2], hfa2⟩

/-! ## Lemmas about the assembler -/

theorem buildStep_spec {step : PyVal} {s : OutStep} (h : buildStep step = some s) :
    (s.is_first = false ∧ s.is_last = false ∧ s.is_terminal = false ∧
       s.reward = 0 ∧ s.discount = 1 ∧
       s.language_instruction = LANGUAGE_INSTRUCTION) ∧
    (∃ cp g, s.action_dict_cartesian_position = PyVal.vec cp ∧
       s.action_dict_gripper_position = PyVal.vec [g] ∧ s.action = cp ++ [g]) ∧
    (∃ obs im eKey wKey eRaw wRaw,
       dGet step "observation" = some obs ∧ dGet obs "image" = some im ∧
       dGet im eKey = some eRaw ∧ revLast eRaw = some s.exterior_image_1_left ∧
       dGet im wKey = some wRaw ∧ revLast wRaw = some s.wrist_image_left) := by
  simp only [buildStep, bindO_eq_some, Option.some.injEq] at h
  obtain ⟨obs, hobs, act, hact, ct, hct, ctd, hctd, wids, hwids, eids, heids,
    im, him, eId, heId, eRaw, heRaw, eImg, heImg, wId, hwId, wRaw, hwRaw,
    wImg, hwImg, rs, hrs, ocp, hocp, ojp, hojp, ogpRaw, hogpRaw, ogp, hogp,
    adcp, hadcp, adcv, hadcv, adgpRaw, hadgpRaw, adgp, hadgp,
    adgvRaw, hadgvRaw, adgv, hadgv, adjp, hadjp, adjv, hadjv,
    cp, hcp, g, hg, hfin⟩ := h
  subst hfin
  obtain ⟨x, hx, hw⟩ := npArray1_eq_some.mp hadgp
  have hgx : adgpRaw = PyVal.num g := asNum_eq_some.mp hg
  have hxg : x = g := by
    rw [hgx] at hx
    exact (PyVal.num.injEq _ _ ▸ hx).symm
  refine ⟨⟨rfl, rfl, rfl, rfl, rfl, rfl⟩,
    ⟨cp, g, asVec_eq_some.mp hcp ▸ rfl, ?_, rfl⟩,
    obs, im, eId ++ "_left", wId ++ "_left", eRaw, wRaw,
    hobs, him, heRaw, heImg, hwRaw, hwImg⟩
  simp only [hw, hxg, asVec_eq_some.mp hcp]

theorem assembleSteps_mem {flag : Bool} {data : List PyVal} {ep : List OutStep}
    (h : assembleSteps flag data = some ep) :
    ∀ s ∈ ep, ∃ t ∈ data, buildStep t = some s := by
  induction data generalizing ep with
  | nil =>
      simp only [assembleSteps, Option.some.injEq] at h
      subst h; simp
  | cons step rest ih =>
      simp only [assembleSteps] at h
      cases hno : (if flag then isNoOp step else some false) with
      | none => rw [hno] at h; exact absurd h (by simp)
      | some b =>
          rw [hno] at h
          cases b with
          | true =>
              intro s hs
              obtain ⟨t, ht, hbt⟩ := ih h s hs
              exact ⟨t, by simp [ht], hbt⟩
          | false =>
              cases hbs : buildStep step with
              | none => rw [hbs] at h; exact absurd h (by simp)
              | some s0 =>
                  rw [hbs] at h
                  cases htail : assembleSteps flag rest with
                  | none => rw [htail] at h; exact absurd h (by simp)
                  | some tail =>
                      rw [htail] at h
                      simp only [Option.some.injEq] at h
                      subst h
                      intro s hs
                      rcases List.mem_cons.mp hs with hs | hs
                      · exact ⟨step, by simp, hs ▸ hbs⟩
                      · obtain ⟨t, ht, hbt⟩ := ih htail s hs
                        exact ⟨t, by simp [ht], hbt⟩

theorem assembleSteps_append {flag : Bool} (xs ys : List PyVal) :
    assembleSteps flag (xs ++ ys) =
      bindO (assembleSteps flag xs) fun a =>
      bindO (assembleSteps flag ys) fun b => some (a ++ b) := by
  induction xs with
  | nil =>
      simp only [List.nil_append, assembleSteps, bindO_some]
      cases assembleSteps flag ys <;> simp [bindO]
  | cons step rest ih =>
      simp only [List.cons_append, assembleSteps, List.append_eq]
      cases hno : (if flag then isNoOp step else some false) with
      | none => simp [bindO]
      | some b =>
          cases b with
          | true =>
              dsimp only
              exact ih
          | false =>
              cases hbs : buildStep step with
              | none => simp [bindO]
              | some s0 =>
                  dsimp only
                  rw [ih]
                  cases hxs : assembleSteps flag rest with
                  | none => simp [bindO]
                  | some a =>
                      cases hys : assembleSteps flag ys with
                      | none => simp [bindO]
                      | some bl => simp [bindO]

theorem assembleSteps_cons_noop {t : PyVal} {l : List PyVal}
    (h : isNoOp t = some true) :
    assembleSteps true (t :: l) = assembleSteps true l := by
  simp [assembleSteps, h]

theorem setLast_length (l : List OutStep) : (setLast l).length = l.length := by
  induction l with
  | nil => rfl
  | cons s rest ih =>
      cases rest with
      | nil => rfl
      | cons s2 r2 => simpa [setLast] using ih

theorem setLast_get? (l : List OutStep) (i : Nat) :
    (setLast l).get? i =
      if i + 1 = l.length then (l.get? i).map lastify else l.get? i := by
  induction l generalizing i with
  | nil => simp [setLast]
  | cons s rest ih =>
      cases rest with
      | nil =>
          cases i with
          | zero => simp [setLast, lastify]
          | succ j => simp [setLast, List.get?]
      | cons s2 r2 =>
          cases i with
          | zero =>
              have : ¬ (0 + 1 = (s :: s2 :: r2).length) := by simp
              simp [setLast, List.get?, this]
          | succ j =>
              have := ih j
              simp only [setLast, List.get?]
              simpa [List.length_cons, Nat.succ_eq_add_one] using this

theorem setLast_mem {s : OutStep} {l : List OutStep} (h : s ∈ setLast l) :
    ∃ s0 ∈ l, s = s0 ∨ s = lastify s0 := by
  induction l with
  | nil => simp [setLast] at h
  | cons s1 rest ih =>
      cases rest with
      | nil =>
          simp only [setLast, List.mem_singleton] at h
          exact ⟨s1, by simp, Or.inr h⟩
      | cons s2 r2 =>
          simp only [setLast, List.mem_cons] at h
          rcases h with h | h
          · exact ⟨s1, by simp, Or.inl h⟩
          · obtain ⟨s0, hs0, hor⟩ := ih h
            exact ⟨s0, by simp [hs0], hor⟩

theorem setFlags_eq_some {ep steps : List OutStep} (h : setFlags ep = some steps) :
    ∃ a rest, ep = a :: rest ∧ steps = setLast (firstify a :: rest) := by
  cases ep with
  | nil => simp [setFlags] at h
  | cons a rest =>
      simp only [setFlags, Option.some.injEq] at h
      exact ⟨a, rest, rfl, h.symm⟩

/-! ## Lemmas about `_parse_example` -/

theorem isEmitted_elim {r : Except (SkipReason × String) (String × Sample)}
    (h : isEmitted r = true) : ∃ p s, r = .ok (p, s) := by
  cases r with
  | ok v => exact ⟨v.1, v.2, by rfl⟩
  | error e => simp [isEmitted] at h

theorem parse_ok_elim {cfg : Config} {load : String → String → Option (List PyVal)}
    {path p : String} {sample : Sample}
    (h : _parse_example cfg load path = .ok (p, sample)) :
    p = path ∧ sample.file_path = h5Path path ∧
      sample.recording_folderpath = recPath path ∧
      ∃ data, load (h5Path path) (recPath path) = some data ∧
        parseBody cfg data = some sample.steps := by
  cases hl : load (h5Path path) (recPath path) with
  | none =>
      simp only [_parse_example, hl] at h
      exact absurd h (by simp)
  | some data =>
      simp only [_parse_example, hl] at h
      cases hb : parseBody cfg data with
      | none =>
          simp only [hb] at h
          exact absurd h (by simp)
      | some episode =>
          simp only [hb, Except.ok.injEq, Prod.mk.injEq] at h
          obtain ⟨hp, hs⟩ := h
          subst hp
          refine ⟨rfl, ?_, ?_, data, rfl, ?_⟩ <;> rw [← hs]
          exact hb

theorem parseBody_elim {cfg : Config} {data : List PyVal} {steps : List OutStep}
    (h : parseBody cfg data = some steps) :
    checkKeys data = some () ∧ ∃ resized episode,
      resizeAll cfg data = some resized ∧
      assembleSteps cfg.filter_no_ops resized = some episode ∧
      setFlags episode = some steps := by
  simp only [parseBody, bindO_eq_some] at h
  obtain ⟨u, hu, r, hr, ep, hep, hset⟩ := h
  exact ⟨by cases u; exact hu, r, ep, hr, hep, hset⟩

/-- After `setFlags`, an episode of all-fresh steps (flags clear, reward 0)
has its flags determined purely by position. -/
theorem flags_positions {ep steps : List OutStep}
    (hset : setFlags ep = some steps)
    (hflags : ∀ s ∈ ep, s.is_first = false ∧ s.is_last = false ∧
      s.is_terminal = false ∧ s.reward = 0) :
    steps ≠ [] ∧ ∀ i s, steps.get? i = some s →
      (s.is_first = decide (i = 0) ∧
       s.is_last = decide (i + 1 = steps.length) ∧
       s.is_terminal = decide (i + 1 = steps.length) ∧
       s.reward = if i + 1 = steps.length then 1 else 0) := by
  obtain ⟨a, rest, hep, hsteps⟩ := setFlags_eq_some hset
  subst hep
  have hlen : steps.length = rest.length + 1 := by
    rw [hsteps, setLast_length]; simp
  constructor
  · intro hnil
    rw [hnil] at hlen
    exact absurd hlen (by simp)
  intro i s hs
  have hget := setLast_get? (firstify a :: rest) i
  rw [← hsteps] at hget
  have hlen2 : (firstify a :: rest).length = steps.length := by simp [hlen]
  by_cases hlast : i + 1 = steps.length
  · rw [hget, hlen2, if_pos hlast] at hs
    cases hs1 : (firstify a :: rest).get? i with
    | none => rw [hs1] at hs; exact absurd hs (by simp)
    | some s1 =>
        rw [hs1] at hs
        simp only [Option.map_some', Option.some.injEq] at hs
        subst hs
        have hfirst : (lastify s1).is_first = decide (i = 0) := by
          cases i with
          | zero =>
              simp only [List.get?_cons_zero, Option.some.injEq] at hs1
              subst hs1
              simp [lastify, firstify]
          | succ j =>
              simp only [List.get?_cons_succ] at hs1
              have hmem : s1 ∈ rest := List.get?_mem hs1
              have := hflags s1 (List.mem_cons_of_mem _ hmem)
              simp [lastify, this.1]
        exact ⟨hfirst, by simp [lastify, hlast], by simp [lastify, hlast],
          by simp [lastify, hlast]⟩
  · rw [hget, hlen2, if_neg hlast] at hs
    cases i with
    | zero =>
        simp only [List.get?_cons_zero, Option.some.injEq] at hs
        subst hs
        have ha := hflags a (by simp)
        refine ⟨by simp [firstify], ?_, ?_, ?_⟩ <;>
          simp [firstify, hlast, ha.2.1, ha.2.2.1, ha.2.2.2]
    | succ j =>
        simp only [List.get?_cons_succ] at hs
        have hmem : s ∈ rest := List.get?_mem hs
        have hsf := hflags s (List.mem_cons_of_mem _ hmem)
        exact ⟨by simp [hsf.1], by simp [hlast, hsf.2.1],
          by simp [hlast, hsf.2.2.1], by simp [hlast, hsf.2.2.2]⟩

/-- Membership in the flagged episode, tracking the payload fields that the
flag updates do not touch. -/
theorem mem_setFlags_content {ep steps : List OutStep}
    (hset : setFlags ep = some steps) {s : OutStep} (hs : s ∈ steps) :
    ∃ s0 ∈ ep,
      s.action = s0.action ∧
      s.action_dict_cartesian_position = s0.action_dict_cartesian_position ∧
      s.action_dict_gripper_position = s0.action_dict_gripper_position ∧
      s.exterior_image_1_left = s0.exterior_image_1_left ∧
      s.wrist_image_left = s0.wrist_image_left := by
  obtain ⟨a, rest, hep, hsteps⟩ := setFlags_eq_some hset
  subst hep
  rw [hsteps] at hs
  obtain ⟨s1, hs1, hor⟩ := setLast_mem hs
  rcases List.mem_cons.mp hs1 with h1 | h1
  · subst h1
    refine ⟨a, by simp, ?_⟩
    rcases hor with rfl | rfl
    · exact ⟨rfl, rfl, rfl, rfl, rfl⟩
    · exact ⟨rfl, rfl, rfl, rfl, rfl⟩
  · refine ⟨s1, List.mem_cons_of_mem _ h1, ?_⟩
    rcases hor with rfl | rfl
    · exact ⟨rfl, rfl, rfl, rfl, rfl⟩
    · exact ⟨rfl, rfl, rfl, rfl, rfl⟩

/-- Every step of an assembled (pre-flag) episode is fresh: flags clear,
reward 0. -/
theorem assembled_fresh {flag : Bool} {data : List PyVal} {ep : List OutStep}
    (h : assembleSteps flag data = some ep) :
    ∀ s ∈ ep, s.is_first = false ∧ s.is_last = false ∧
      s.is_terminal = false ∧ s.reward = 0 := by
  intro s hs
  obtain ⟨t, _, hbt⟩ := assembleSteps_mem h s hs
  obtain ⟨⟨h1, h2, h3, h4, _, _⟩, _, _⟩ := buildStep_spec hbt
  exact ⟨h1, h2, h3, h4⟩

/-! ## Lemmas about the resize pass -/

theorem resizeImages_not_mem {cfg : Config} {im im2 : PyVal} {keys : List String}
    {k : String} (h : resizeImages cfg im keys = some im2) (hk : k ∉ keys) :
    dGet im2 k = dGet im k := by
  induction keys generalizing im with
  | nil =>
      simp only [resizeImages, Option.some.injEq] at h
      subst h; rfl
  | cons k1 ks ih =>
      simp only [resizeImages, bindO_eq_some] at h
      obtain ⟨v, hv, m, hm, im1, him1, hrest⟩ := h
      have hk2 : k ∉ ks := fun hh => hk (List.mem_cons_of_mem _ hh)
      have hne : k ≠ k1 := fun hh => hk (hh ▸ List.mem_cons_self _ _)
      rw [ih hrest hk2]
      exact dGet_dSetV_ne him1 hne

theorem resizeImages_mem {cfg : Config} {im im2 : PyVal} {keys : List String}
    {k : String} (h : resizeImages cfg im keys = some im2) (hk : k ∈ keys) :
    ∃ m, dGet im2 k =
      some (.image (cfg.pilResize m (cfg.image_res.2, cfg.image_res.1))) := by
  induction keys generalizing im with
  | nil => simp at hk
  | cons k1 ks ih =>
      simp only [resizeImages, bindO_eq_some] at h
      obtain ⟨v, hv, m, hm, im1, him1, hrest⟩ := h
      by_cases hmem : k ∈ ks
      · exact ih hrest hmem
      · have hk1 : k = k1 := by
          rcases List.mem_cons.mp hk with h1 | h1
          · exact h1
          · exact absurd h1 hmem
        subst hk1
        rw [resizeImages_not_mem hrest hmem]
        exact ⟨m, dGet_dSetV_self him1⟩

theorem resizeStep_elim {cfg : Config} {keys : List String} {t t2 : PyVal}
    (h : resizeStep cfg keys t = some t2) :
    ∃ obs im im2 obs2,
      dGet t "observation" = some obs ∧ dGet obs "image" = some im ∧
      resizeImages cfg im keys = some im2 ∧
      dGet t2 "observation" = some obs2 ∧ dGet obs2 "image" = some im2 := by
  simp only [resizeStep, bindO_eq_some] at h
  obtain ⟨obs, hobs, im, him, im2, him2, obs2, hobs2, hset⟩ := h
  exact ⟨obs, im, im2, obs2, hobs, him, him2, dGet_dSetV_self hset,
    dGet_dSetV_self hobs2⟩

theorem resizeAll_elim {cfg : Config} {d0 : PyVal} {rest data2 : List PyVal}
    (h : resizeAll cfg (d0 :: rest) = some data2) :
    ∃ keys, imageKeysOf d0 = some keys ∧
      mapOpt (resizeStep cfg keys) (d0 :: rest) = some data2 := by
  simp only [resizeAll] at h
  cases hk : imageKeysOf d0 with
  | none => rw [hk] at h; exact absurd h (by simp)
  | some keys => rw [hk] at h; exact ⟨keys, rfl, h⟩

theorem imageKeysOf_elim {t : PyVal} {kt : List String}
    (h : imageKeysOf t = some kt) :
    ∃ obs im, dGet t "observation" = some obs ∧ dGet obs "image" = some im ∧
      dKeys im = some kt := by
  simp only [imageKeysOf, bindO_eq_some] at h
  obtain ⟨obs, hobs, im, him, hk⟩ := h
  exact ⟨obs, im, hobs, him, hk⟩

theorem containsAll_mem {l target : List String} {k : String}
    (h : l.all (fun x => target.contains x) = true) (hk : k ∈ l) :
    k ∈ target := by
  have := List.all_eq_true.mp h k hk
  simpa using this

theorem imgHasShape_rev {m : Img} {h w c : Nat}
    (hm : imgHasShape m h w c = true) :
    imgHasShape (m.map (fun row => row.map List.reverse)) h w c = true := by
  simp only [imgHasShape, Bool.and_eq_true, beq_iff_eq, List.all_eq_true,
    List.length_map, List.mem_map] at *
  obtain ⟨hl, hrows⟩ := hm
  refine ⟨hl, ?_⟩
  rintro row ⟨r0, hr0, rfl⟩
  obtain ⟨hlen, hpx⟩ := hrows r0 hr0
  refine ⟨by simpa using hlen, ?_⟩
  intro px hpxm
  obtain ⟨p0, hp0, rfl⟩ := List.mem_map.mp hpxm
  simpa using hpx p0 hp0

theorem pil0_ok : PilOk cfg0 := by
  intro m s
  show imgHasShape (List.replicate s.2 (List.replicate s.1 [0, 0, 0])) s.2 s.1 3 = true
  unfold imgHasShape
  rw [Bool.and_eq_true]
  refine ⟨by simp, ?_⟩
  refine List.all_eq_true.mpr ?_
  intro row hrow
  rw [List.eq_of_mem_replicate hrow, Bool.and_eq_true]
  refine ⟨by simp, ?_⟩
  refine List.all_eq_true.mpr ?_
  intro px hpx
  rw [List.eq_of_mem_replicate hpx]
  rfl

/-! ## The claims -/

/-- C1: for every episode successfully assembled (a non-None result of
`_parse_example`), exactly one step has `is_first = true` and it is the
earliest retained step (index 0); exactly one step has `is_last = true`
and `is_terminal = true` and it is the latest retained step, with
`reward = 1.0`; every other step has `reward = 0.0` and flags false.
This is stated positionally: each step's flags and reward are exactly
determined by whether its index is 0 or the last index. -/
theorem claim1_episode_flag_invariant (cfg : Config)
    (load : String → String → Option (List PyVal)) (path : String)
    (h : isEmitted (_parse_example cfg load path) = true) :
    resultSteps (_parse_example cfg load path) ≠ [] ∧
    ∀ i s, (resultSteps (_parse_example cfg load path)).get? i = some s →
      (s.is_first = decide (i = 0) ∧
       s.is_last = decide (i + 1 = (resultSteps (_parse_example cfg load path)).length) ∧
       s.is_terminal = decide (i + 1 = (resultSteps (_parse_example cfg load path)).length) ∧
       s.reward =
         if i + 1 = (resultSteps (_parse_example cfg load path)).length then 1 else 0) := by
  obtain ⟨p, sample, hE⟩ := isEmitted_elim h
  obtain ⟨hp, hf, hr, data, hload, hbody⟩ := parse_ok_elim hE
  obtain ⟨hck, resized, episode, hres, hasm, hset⟩ := parseBody_elim hbody
  have hpos := flags_positions hset (assembled_fresh hasm)
  rw [hE]
  exact hpos

/-- Witness for C1: a concrete two-step trajectory parses successfully and
satisfies the flag invariant. -/
theorem claim1_witness :
    isEmitted (_parse_example cfg0 loadW "ep") = true ∧
    (resultSteps (_parse_example cfg0 loadW "ep") ≠ [] ∧
     ∀ i s, (resultSteps (_parse_example cfg0 loadW "ep")).get? i = some s →
       (s.is_first = decide (i = 0) ∧
        s.is_last = decide (i + 1 = (resultSteps (_parse_example cfg0 loadW "ep")).length) ∧
        s.is_terminal = decide (i + 1 = (resultSteps (_parse_example cfg0 loadW "ep")).length) ∧
        s.reward =
          if i + 1 = (resultSteps (_parse_example cfg0 loadW "ep")).length then 1 else 0)) :=
  ⟨rfl, claim1_episode_flag_invariant cfg0 loadW "ep" rfl⟩

/-- C10: if a successfully assembled episode retains exactly one step,
that single step has `is_first`, `is_last` and `is_terminal` all true and
`reward = 1.0` (the first-step and last-step assignments hit the same
element). -/
theorem claim10_single_step_all_flags (cfg : Config)
    (load : String → String → Option (List PyVal)) (path : String)
    (h : isEmitted (_parse_example cfg load path) = true)
    (hone : (resultSteps (_parse_example cfg load path)).length = 1) :
    (resultSteps (_parse_example cfg load path)).map
      (fun s => (s.is_first, s.is_last, s.is_terminal, s.reward)) =
      [(true, true, true, 1)] := by
  obtain ⟨p, sample, hE⟩ := isEmitted_elim h
  rw [hE] at hone ⊢
  obtain ⟨hp, hf, hr, data, hload, hbody⟩ := parse_ok_elim hE
  obtain ⟨hck, resized, episode, hres, hasm, hset⟩ := parseBody_elim hbody
  have hpos := flags_positions hset (assembled_fresh hasm)
  obtain ⟨s, hs⟩ := List.length_eq_one.mp hone
  have hsteps : sample.steps = [s] := hs
  have h0 : sample.steps.get? 0 = some s := by rw [hsteps]; rfl
  obtain ⟨h1, h2, h3, h4⟩ := hpos.2 0 s h0
  have hlen : sample.steps.length = 1 := by rw [hsteps]; rfl
  show sample.steps.map _ = _
  rw [hsteps]
  simp [h1, h2, h3, h4, hlen]

/-- Witness for C10: a concrete one-step trajectory. -/
theorem claim10_witness :
    isEmitted (_parse_example cfg0 loadOne "ep") = true ∧
    (resultSteps (_parse_example cfg0 loadOne "ep")).length = 1 ∧
    (resultSteps (_parse_example cfg0 loadOne "ep")).map
      (fun s => (s.is_first, s.is_last, s.is_terminal, s.reward)) =
      [(true, true, true, 1)] :=
  ⟨rfl, rfl, claim10_single_step_all_flags cfg0 loadOne "ep" rfl rfl⟩

/-- C2: for every retained step of every emitted episode, the output
action vector is the concatenation of `action_dict.cartesian_position`
and `action_dict.gripper_position` (and has 7 elements whenever the
cartesian position has the schema's 6). -/
theorem claim2_action_concatenation (cfg : Config)
    (load : String → String → Option (List PyVal)) (path : String)
    (h : isEmitted (_parse_example cfg load path) = true) :
    ∀ s ∈ resultSteps (_parse_example cfg load path), ∃ cp g,
      s.action_dict_cartesian_position = PyVal.vec cp ∧
      s.action_dict_gripper_position = PyVal.vec [g] ∧
      s.action = cp ++ [g] ∧
      (cp.length = 6 → s.action.length = 7) := by
  obtain ⟨p, sample, hE⟩ := isEmitted_elim h
  rw [hE]
  intro s hs
  obtain ⟨hp, hf, hr, data, hload, hbody⟩ := parse_ok_elim hE
  obtain ⟨hck, resized, episode, hres, hasm, hset⟩ := parseBody_elim hbody
  obtain ⟨s0, hs0, hact, hadcp, hadgp, _, _⟩ := mem_setFlags_content hset hs
  obtain ⟨t, ht, hbt⟩ := assembleSteps_mem hasm s0 hs0
  obtain ⟨_, ⟨cp, g, h1, h2, h3⟩, _⟩ := buildStep_spec hbt
  refine ⟨cp, g, ?_, ?_, ?_, ?_⟩
  · rw [hadcp, h1]
  · rw [hadgp, h2]
  · rw [hact, h3]
  · intro h6
    rw [hact, h3]
    simp [h6]

/-- Witness for C2 at the concrete two-step trajectory. -/
theorem claim2_witness :
    isEmitted (_parse_example cfg0 loadW "ep") = true ∧
    ∀ s ∈ resultSteps (_parse_example cfg0 loadW "ep"), ∃ cp g,
      s.action_dict_cartesian_position = PyVal.vec cp ∧
      s.action_dict_gripper_position = PyVal.vec [g] ∧
      s.action = cp ++ [g] ∧
      (cp.length = 6 → s.action.length = 7) :=
  ⟨rfl, claim2_action_concatenation cfg0 loadW "ep" rfl⟩

/-- C4: a path whose loaded trajectory becomes an empty step list after
no-op filtering is skipped with the processing-error diagnostic (the
`IndexError` of `episode[0]` is caught by the catch-all), and no record
is emitted for it. -/
theorem claim4_empty_after_filter (cfg : Config)
    (load : String → String → Option (List PyVal)) (path : String)
    (data : List PyVal)
    (hload : load (h5Path path) (recPath path) = some data)
    (hck : checkKeys data = some ())
    (hempty : bindO (resizeAll cfg data) (assembleSteps cfg.filter_no_ops) = some []) :
    _parse_example cfg load path = .error (.processing_error, path) := by
  obtain ⟨resized, hres, hasm⟩ := bindO_eq_some.mp hempty
  have hbody : parseBody cfg data = none := by
    simp only [parseBody, hck, hres, hasm, bindO_some]
    rfl
  simp only [_parse_example, hload, hbody]

/-- Witness for C4: a one-step trajectory whose only step is a no-op. -/
theorem claim4_witness :
    loadAllNoOp (h5Path "ep") (recPath "ep") = some [mkRawStep [0, 0, 0, 0, 0, 0]] ∧
    checkKeys [mkRawStep [0, 0, 0, 0, 0, 0]] = some () ∧
    bindO (resizeAll cfg0 [mkRawStep [0, 0, 0, 0, 0, 0]])
      (assembleSteps cfg0.filter_no_ops) = some [] ∧
    _parse_example cfg0 loadAllNoOp "ep" = .error (.processing_error, "ep") :=
  ⟨rfl, rfl, rfl,
    claim4_empty_after_filter cfg0 loadAllNoOp "ep" [mkRawStep [0, 0, 0, 0, 0, 0]]
      rfl rfl rfl⟩

/-- C3: a raw step whose commanded cartesian velocity is the zero vector
(exact equality in every component) is dropped by the assembly loop when
the no-op filter is enabled — assembling with it gives the same result as
assembling without it — and retained in order when the filter is
disabled.  `_parse_example` runs this loop on the resized step list with
the configured flag. -/
theorem claim3_noop_filtering (pre post : List PyVal) (s : PyVal) (v : List Int)
    (hv : bindO (dGet s "action") (fun a => dGet a "cartesian_velocity") =
      some (PyVal.vec v))
    (hz : v.all (fun x => x == 0) = true) :
    (assembleSteps true (pre ++ s :: post) = assembleSteps true (pre ++ post)) ∧
    (∀ ep, assembleSteps false (pre ++ s :: post) = some ep →
       ∃ b epPre epPost, buildStep s = some b ∧
         assembleSteps false pre = some epPre ∧
         assembleSteps false post = some epPost ∧
         ep = epPre ++ b :: epPost) := by
  have hno : isNoOp s = some true := by
    obtain ⟨a, ha, hvel⟩ := bindO_eq_some.mp hv
    simp only [isNoOp, ha, bindO_some, hvel, npEqZeroAll, hz]
  constructor
  · rw [assembleSteps_append, assembleSteps_append, assembleSteps_cons_noop hno]
  · intro ep hep
    rw [assembleSteps_append] at hep
    obtain ⟨epPre, hpre, hrest⟩ := bindO_eq_some.mp hep
    obtain ⟨epTail, htail, heq⟩ := bindO_eq_some.mp hrest
    have hfalse : assembleSteps false (s :: post) =
        (match buildStep s with
         | none => none
         | some s0 =>
             match assembleSteps false post with
             | none => none
             | some tail => some (s0 :: tail)) := rfl
    rw [hfalse] at htail
    cases hbs : buildStep s with
    | none => rw [hbs] at htail; exact absurd htail (by simp)
    | some b =>
        rw [hbs] at htail
        cases hpost : assembleSteps false post with
        | none => rw [hpost] at htail; exact absurd htail (by simp)
        | some epPost =>
            rw [hpost] at htail
            simp only [Option.some.injEq] at htail
            subst htail
            simp only [Option.some.injEq] at heq
            exact ⟨b, epPre, epPost, rfl, hpre, rfl, heq.symm⟩

/-- Witness for C3: a concrete zero-velocity step between no other steps
and one retained step; enabled filtering drops it, disabled retains it. -/
theorem claim3_witness :
    (bindO (dGet (mkRawStep [0, 0, 0, 0, 0, 0]) "action")
       (fun a => dGet a "cartesian_velocity") =
       some (PyVal.vec [0, 0, 0, 0, 0, 0])) ∧
    (([0, 0, 0, 0, 0, 0] : List Int).all (fun x => x == 0) = true) ∧
    ((assembleSteps true
        ([] ++ mkRawStep [0, 0, 0, 0, 0, 0] :: [mkRawStep [1, 0, 0, 0, 0, 0]]) =
        assembleSteps true ([] ++ [mkRawStep [1, 0, 0, 0, 0, 0]])) ∧
     (∀ ep, assembleSteps false
         ([] ++ mkRawStep [0, 0, 0, 0, 0, 0] :: [mkRawStep [1, 0, 0, 0, 0, 0]]) =
         some ep →
       ∃ b epPre epPost, buildStep (mkRawStep [0, 0, 0, 0, 0, 0]) = some b ∧
         assembleSteps false [] = some epPre ∧
         assembleSteps false [mkRawStep [1, 0, 0, 0, 0, 0]] = some epPost ∧
         ep = epPre ++ b :: epPost)) :=
  ⟨rfl, rfl,
    claim3_noop_filtering [] [mkRawStep [1, 0, 0, 0, 0, 0]]
      (mkRawStep [0, 0, 0, 0, 0, 0]) [0, 0, 0, 0, 0, 0] rfl rfl⟩

theorem checkKeysAux_forall {d0 : PyVal} {l : List PyVal}
    (h : checkKeysAux d0 l = some ()) : ∀ t ∈ l, checkOne d0 t = some true := by
  induction l with
  | nil => simp
  | cons t1 rest ih =>
      simp only [checkKeysAux] at h
      cases hc : checkOne d0 t1 with
      | none => rw [hc] at h; exact absurd h (by simp)
      | some b =>
          rw [hc] at h
          cases b with
          | false => exact absurd h (by simp)
          | true =>
              intro t ht
              rcases List.mem_cons.mp ht with rfl | ht2
              · exact hc
              · exact ih h t ht2

/-- C6 (amended): the `assert` compares each raw step's top-level key set
(`t.keys()`) with the first step's; a step whose top-level keys differ
makes the path fall into the catch-all processing-error skip with no
record emitted. -/
theorem claim6_toplevel_key_mismatch_skipped (cfg : Config)
    (load : String → String → Option (List PyVal)) (path : String)
    (d0 t : PyVal) (rest : List PyVal) (kt k0 : List String)
    (hload : load (h5Path path) (recPath path) = some (d0 :: rest))
    (ht : t ∈ d0 :: rest)
    (hkt : dKeys t = some kt) (hk0 : dKeys d0 = some k0)
    (hne : keySetEq kt k0 = false) :
    _parse_example cfg load path = .error (.processing_error, path) := by
  have hck : checkKeys (d0 :: rest) = none := by
    cases hck2 : checkKeys (d0 :: rest) with
    | none => rfl
    | some u =>
        cases u
        have hall := checkKeysAux_forall
          (show checkKeysAux d0 (d0 :: rest) = some () from hck2)
        have hone := hall t ht
        simp only [checkOne, hkt, hk0, hne] at hone
        simp at hone
  have hbody : parseBody cfg (d0 :: rest) = none := by
    simp only [parseBody, hck]
    rfl
  simp only [_parse_example, hload, hbody]

/-- A raw step whose top-level keys are only `observation` (no `action`). -/
def rawStepBadTop : PyVal := .dict [("observation", .num 0)]

/-- Loader for the top-level-key-mismatch scenario. -/
def loadBadTop : String → String → Option (List PyVal) :=
  fun _ _ => some [mkRawStep [1, 0, 0, 0, 0, 0], rawStepBadTop]

/-- Witness for the amended C6: a step missing the `action` key is
detected by the assert and the whole path is skipped. -/
theorem claim6_witness :
    dKeys rawStepBadTop = some ["observation"] ∧
    dKeys (mkRawStep [1, 0, 0, 0, 0, 0]) = some ["observation", "action"] ∧
    keySetEq ["observation"] ["observation", "action"] = false ∧
    _parse_example cfg0 loadBadTop "ep" = .error (.processing_error, "ep") :=
  ⟨rfl, rfl, rfl,
    claim6_toplevel_key_mismatch_skipped cfg0 loadBadTop "ep"
      (mkRawStep [1, 0, 0, 0, 0, 0]) rawStepBadTop [rawStepBadTop]
      ["observation"] ["observation", "action"]
      rfl (List.mem_cons_of_mem _ (List.mem_cons_self _ _)) rfl rfl rfl⟩

/-- Counterexample to C6 as stated: the second raw step's observation key
set differs from the first's (an extra `extra` key), yet the path is NOT
skipped — the assert only compares top-level keys, which agree. -/
theorem claim6_counterexample :
    isEmitted (_parse_example cfg0 loadExtraObsKey "ep") = true ∧
    bindO (dGet (mkRawStep [1, 0, 0, 0, 0, 0]) "observation") dKeys =
      some ["image", "camera_type", "robot_state"] ∧
    bindO (dGet rawStepExtraObsKey "observation") dKeys =
      some ["image", "camera_type", "robot_state", "extra"] ∧
    keySetEq ["image", "camera_type", "robot_state", "extra"]
      ["image", "camera_type", "robot_state"] = false :=
  ⟨rfl, rfl, rfl, rfl⟩

/-- C7: if the loader fails on exactly one path `p` (and agrees with a
reference loader elsewhere), `_generate_examples` produces, for every
other path, exactly the output it would produce under the reference
loader, and for `p` exactly one load-failure skip and no record. -/
theorem claim7_failure_isolation (cfg : Config)
    (load load2 : String → String → Option (List PyVal))
    (paths : List String) (p : String)
    (hagree : ∀ q ∈ paths, q ≠ p →
      load2 (h5Path q) (recPath q) = load (h5Path q) (recPath q))
    (hfail : load2 (h5Path p) (recPath p) = none) :
    _generate_examples cfg load2 paths =
      paths.map (fun q =>
        if q = p then .error (.load_failed, q) else _parse_example cfg load q) := by
  unfold _generate_examples
  apply List.map_congr_left
  intro q hq
  by_cases hqp : q = p
  · subst hqp
    simp [_parse_example, hfail]
  · rw [if_neg hqp]
    have hag := hagree q hq hqp
    simp only [_parse_example, hag]

/-- Witness for C7: among paths `a` and `b`, the loader fails only on
`a`; `b` still yields its normal record and `a` yields one load-failure
skip. -/
theorem claim7_witness :
    loadFailA (h5Path "a") (recPath "a") = none ∧
    _generate_examples cfg0 loadFailA ["a", "b"] =
      ["a", "b"].map (fun q =>
        if q = "a" then .error (.load_failed, q) else _parse_example cfg0 loadW q) :=
  ⟨rfl,
    claim7_failure_isolation cfg0 loadW loadFailA ["a", "b"] "a"
      (fun q hq hne => by
        rcases List.mem_cons.mp hq with rfl | hq2
        · exact absurd rfl hne
        · rcases List.mem_cons.mp hq2 with rfl | h3
          · rfl
          · exact absurd h3 (by simp))
      rfl⟩

theorem filterByDate_sub {strp : String → Option PyDateTime}
    {keep : PyDateTime → Bool} {l out : List String}
    (h : filterByDate strp keep l = some out) : ∀ p ∈ out, p ∈ l := by
  induction l generalizing out with
  | nil =>
      simp only [filterByDate, Option.some.injEq] at h
      subst h; simp
  | cons e rest ih =>
      simp only [filterByDate, bindO_eq_some] at h
      obtain ⟨d, hd, tail, htail, hout⟩ := h
      simp only [Option.some.injEq] at hout
      subst hout
      intro p hp
      by_cases hkeep : keep d
      · rw [if_pos hkeep] at hp
        rcases List.mem_cons.mp hp with rfl | hp2
        · exact List.mem_cons_self _ _
        · exact List.mem_cons_of_mem _ (ih htail p hp2)
      · rw [if_neg hkeep] at hp
        exact List.mem_cons_of_mem _ (ih htail p hp)

theorem filterByDate_mem {strp : String → Option PyDateTime}
    {keep : PyDateTime → Bool} {l out : List String}
    (h : filterByDate strp keep l = some out) :
    ∀ p, p ∈ out ↔
      (p ∈ l ∧ ∃ d, strp (sessionName p) = some d ∧ keep d = true) := by
  induction l generalizing out with
  | nil =>
      simp only [filterByDate, Option.some.injEq] at h
      subst h; simp
  | cons e rest ih =>
      simp only [filterByDate, bindO_eq_some] at h
      obtain ⟨d, hd, tail, htail, hout⟩ := h
      simp only [Option.some.injEq] at hout
      subst hout
      intro p
      by_cases hkeep : keep d
      · rw [if_pos hkeep]
        constructor
        · intro hp
          rcases List.mem_cons.mp hp with rfl | hp2
          · exact ⟨List.mem_cons_self _ _, d, hd, hkeep⟩
          · obtain ⟨hmem, hex⟩ := (ih htail p).mp hp2
            exact ⟨List.mem_cons_of_mem _ hmem, hex⟩
        · rintro ⟨hp, hex⟩
          rcases List.mem_cons.mp hp with rfl | hp2
          · exact List.mem_cons_self _ _
          · exact List.mem_cons_of_mem _ ((ih htail p).mpr ⟨hp2, hex⟩)
      · rw [if_neg hkeep]
        constructor
        · intro hp
          obtain ⟨hmem, hex⟩ := (ih htail p).mp hp
          exact ⟨List.mem_cons_of_mem _ hmem, hex⟩
        · rintro ⟨hp, hex⟩
          rcases List.mem_cons.mp hp with rfl | hp2
          · obtain ⟨d2, hd2, hk2⟩ := hex
            rw [hd] at hd2
            injection hd2 with hdd
            exact absurd (hdd ▸ hk2) hkeep
          · exact (ih htail p).mpr ⟨hp2, hex⟩

/-- C9: path discovery returns only directories containing both
`trajectory.h5` and `recordings/MP4`; a directory missing the recordings
folder is never returned even if it has the trajectory file. -/
theorem claim9_path_filter (crawl : List String) (ope : String → Bool)
    (strp : String → Option PyDateTime) (ini fin : Option PyDateTime)
    (out : List String) (h : _split_paths crawl ope strp ini fin = some out) :
    ∀ p ∈ out, ope (p ++ "/trajectory.h5") = true ∧
      ope (p ++ "/recordings/MP4") = true := by
  simp only [_split_paths, bindO_eq_some] at h
  obtain ⟨ps2, hps2, hfin⟩ := h
  intro p hp
  have hp2 : p ∈ ps2 := by
    cases fin with
    | none =>
        simp only [Option.some.injEq] at hfin
        subst hfin; exact hp
    | some d1 => exact filterByDate_sub hfin p hp
  have hp3 : p ∈ crawl.filter (fun q =>
      ope (q ++ "/trajectory.h5") && ope (q ++ "/recordings/MP4")) := by
    cases ini with
    | none =>
        simp only [Option.some.injEq] at hps2
        subst hps2; exact hp2
    | some d0 => exact filterByDate_sub hps2 p hp2
  have := (List.mem_filter.mp hp3).2
  exact ⟨(Bool.and_eq_true _ _ ▸ this).1, (Bool.and_eq_true _ _ ▸ this).2⟩

/-- Witness for C9: with `bad` lacking `recordings/MP4`, only `good` is
returned, and the theorem certifies the recordings-folder test held for
it. -/
theorem claim9_witness :
    _split_paths ["good", "bad"] existsNoMp4 strptime0 none none = some ["good"] ∧
    (existsNoMp4 ("good" ++ "/trajectory.h5") = true ∧
     existsNoMp4 ("good" ++ "/recordings/MP4") = true) :=
  ⟨rfl,
    claim9_path_filter ["good", "bad"] existsNoMp4 strptime0 none none
      ["good"] rfl "good" (List.mem_cons_self _ _)⟩

/-- C5: date filtering keeps exactly the discovered, well-formed
directories whose parsed session timestamp lies within the inclusive,
individually nullable bounds — a disabled (`none`) bound imposes no
restriction on its side. -/
theorem claim5_date_filter_inclusive (crawl : List String)
    (ope : String → Bool) (strp : String → Option PyDateTime)
    (ini fin : Option PyDateTime) (out : List String)
    (h : _split_paths crawl ope strp ini fin = some out) :
    ∀ p, p ∈ out ↔
      (p ∈ crawl ∧ ope (p ++ "/trajectory.h5") = true ∧
       ope (p ++ "/recordings/MP4") = true ∧
       (∀ d0, ini = some d0 →
         ∃ d, strp (sessionName p) = some d ∧ dtLe d0 d = true) ∧
       (∀ d1, fin = some d1 →
         ∃ d, strp (sessionName p) = some d ∧ dtLe d d1 = true)) := by
  simp only [_split_paths, bindO_eq_some] at h
  obtain ⟨ps2, hps2, hfin⟩ := h
  intro p
  have hbase : p ∈ crawl.filter (fun q =>
      ope (q ++ "/trajectory.h5") && ope (q ++ "/recordings/MP4")) ↔
      (p ∈ crawl ∧ ope (p ++ "/trajectory.h5") = true ∧
        ope (p ++ "/recordings/MP4") = true) := by
    rw [List.mem_filter, Bool.and_eq_true]
  have hmid : p ∈ ps2 ↔
      (p ∈ crawl.filter (fun q =>
        ope (q ++ "/trajectory.h5") && ope (q ++ "/recordings/MP4")) ∧
       (∀ d0, ini = some d0 →
         ∃ d, strp (sessionName p) = some d ∧ dtLe d0 d = true)) := by
    cases ini with
    | none =>
        simp only [Option.some.injEq] at hps2
        subst hps2
        simp
    | some d0 =>
        rw [filterByDate_mem hps2 p]
        constructor
        · rintro ⟨hmem, d, hd, hk⟩
          exact ⟨hmem, fun d2 heq => by
            injection heq with heq2
            exact ⟨d, hd, heq2 ▸ hk⟩⟩
        · rintro ⟨hmem, hall⟩
          obtain ⟨d, hd, hk⟩ := hall d0 rfl
          exact ⟨hmem, d, hd, hk⟩
  have htop : p ∈ out ↔
      (p ∈ ps2 ∧
       (∀ d1, fin = some d1 →
         ∃ d, strp (sessionName p) = some d ∧ dtLe d d1 = true)) := by
    cases fin with
    | none =>
        simp only [Option.some.injEq] at hfin
        subst hfin
        simp
    | some d1 =>
        rw [filterByDate_mem hfin p]
        constructor
        · rintro ⟨hmem, d, hd, hk⟩
          exact ⟨hmem, fun d2 heq => by
            injection heq with heq2
            exact ⟨d, hd, heq2 ▸ hk⟩⟩
        · rintro ⟨hmem, hall⟩
          obtain ⟨d, hd, hk⟩ := hall d1 rfl
          exact ⟨hmem, d, hd, hk⟩
  rw [htop, hmid, hbase]
  tauto

/-- Witness for C5 at the claim's concrete scenario: bounds 09:55–11:00,
directories named for 10:00 (kept), 08:00 (dropped) and exactly 11:00
(kept — inclusive boundary). -/
theorem claim5_witness :
    _split_paths [dirTen, dirEight, dirEleven] existsAll strptime0
      INITIAL_DATE FINAL_DATE = some [dirTen, dirEleven] ∧
    (dirTen ∈ [dirTen, dirEleven] ↔
      (dirTen ∈ [dirTen, dirEight, dirEleven] ∧
       existsAll (dirTen ++ "/trajectory.h5") = true ∧
       existsAll (dirTen ++ "/recordings/MP4") = true ∧
       (∀ d0, INITIAL_DATE = some d0 →
         ∃ d, strptime0 (sessionName dirTen) = some d ∧ dtLe d0 d = true) ∧
       (∀ d1, FINAL_DATE = some d1 →
         ∃ d, strptime0 (sessionName dirTen) = some d ∧ dtLe d d1 = true))) :=
  ⟨rfl,
    claim5_date_filter_inclusive [dirTen, dirEight, dirEleven] existsAll
      strptime0 INITIAL_DATE FINAL_DATE [dirTen, dirEleven] rfl dirTen⟩

/-- C8 (amended): provided every raw step's camera-image key set is
contained in the first step's (so that the resize pass, which iterates
over the first step's keys, has resized every image the camera selection
can pick), both emitted images of every step of an emitted episode are
arrays of shape (configured height, configured width, 3). -/
theorem claim8_image_shape (cfg : Config)
    (load : String → String → Option (List PyVal)) (path : String)
    (d0 : PyVal) (rest : List PyVal) (k0 : List String)
    (hpil : PilOk cfg)
    (hload : load (h5Path path) (recPath path) = some (d0 :: rest))
    (hk0 : imageKeysOf d0 = some k0)
    (hsub : ∀ t ∈ d0 :: rest, ∃ kt, imageKeysOf t = some kt ∧
       kt.all (fun k => k0.contains k) = true)
    (hem : isEmitted (_parse_example cfg load path) = true) :
    ∀ s ∈ resultSteps (_parse_example cfg load path),
      stepImagesHaveShape s cfg.image_res.1 cfg.image_res.2 = true := by
  obtain ⟨p, sample, hE⟩ := isEmitted_elim hem
  rw [hE]
  intro s hs
  obtain ⟨hp, hf, hr, data, hload2, hbody⟩ := parse_ok_elim hE
  rw [hload] at hload2
  injection hload2 with hdata
  subst hdata
  obtain ⟨hck, resized, episode, hres, hasm, hset⟩ := parseBody_elim hbody
  obtain ⟨s0, hs0, _hA, _hB, _hC, hext, hwrist⟩ := mem_setFlags_content hset hs
  obtain ⟨t2, ht2, hbt⟩ := assembleSteps_mem hasm s0 hs0
  obtain ⟨_, _, obs2, im2, eKey, wKey, eRaw, wRaw, hobs2, him2, heRaw, heRev,
    hwRaw, hwRev⟩ := buildStep_spec hbt
  obtain ⟨keys, hkeys, hmap⟩ := resizeAll_elim hres
  rw [hk0] at hkeys
  injection hkeys with hkeys2
  subst hkeys2
  obtain ⟨t, ht, hrstep⟩ := mapOpt_mem hmap t2 ht2
  obtain ⟨obsA, imA, imB, obsB, hobsA, himA, hresize, hobsB, himB⟩ :=
    resizeStep_elim hrstep
  rw [hobs2] at hobsB
  injection hobsB with hOB
  subst hOB
  rw [him2] at himB
  injection himB with hIB
  subst hIB
  obtain ⟨kt, hktA, hcont⟩ := hsub t ht
  obtain ⟨obsA2, imA2, hobsA2, himA2, hktKeys⟩ := imageKeysOf_elim hktA
  rw [hobsA] at hobsA2
  injection hobsA2 with h1
  subst h1
  rw [himA] at himA2
  injection himA2 with h2
  subst h2
  have hshape : ∀ key raw outv, dGet im2 key = some raw →
      revLast raw = some outv →
      ∃ mm, outv = PyVal.image mm ∧
        imgHasShape mm cfg.image_res.1 cfg.image_res.2 3 = true := by
    intro key raw outv hlook hrev
    by_cases hmemk : key ∈ k0
    · obtain ⟨m, hm⟩ := resizeImages_mem hresize hmemk
      rw [hlook] at hm
      injection hm with hm2
      subst hm2
      simp only [revLast, Option.some.injEq] at hrev
      refine ⟨_, hrev.symm, ?_⟩
      apply imgHasShape_rev
      have hcontract := hpil m (cfg.image_res.2, cfg.image_res.1)
      simpa using hcontract
    · rw [resizeImages_not_mem hresize hmemk] at hlook
      have hmm : key ∈ kt := dGet_mem_dKeys hlook hktKeys
      exact absurd (containsAll_mem hcont hmm) hmemk
  obtain ⟨me, hme, hshapeE⟩ := hshape _ _ _ heRaw heRev
  obtain ⟨mw, hmw, hshapeW⟩ := hshape _ _ _ hwRaw hwRev
  unfold stepImagesHaveShape
  rw [hext, hwrist, hme, hmw]
  simp [hshapeE, hshapeW]

/-- Witness for the amended C8: the two-step trajectory has identical
image key sets, and both emitted images of every step come out at the
configured resolution. -/
theorem claim8_witness :
    isEmitted (_parse_example cfg0 loadW "ep") = true ∧
    imageKeysOf (mkRawStep [1, 0, 0, 0, 0, 0]) =
      some ["cam1_left", "cam0_left"] ∧
    ∀ s ∈ resultSteps (_parse_example cfg0 loadW "ep"),
      stepImagesHaveShape s cfg0.image_res.1 cfg0.image_res.2 = true :=
  ⟨rfl, rfl,
    claim8_image_shape cfg0 loadW "ep" (mkRawStep [1, 0, 0, 0, 0, 0])
      [mkRawStep [2, 0, 0, 0, 0, 0]] ["cam1_left", "cam0_left"]
      pil0_ok rfl rfl
      (by
        intro t ht
        rcases List.mem_cons.mp ht with rfl | ht2
        · exact ⟨["cam1_left", "cam0_left"], rfl, rfl⟩
        · rcases List.mem_cons.mp ht2 with rfl | h3
          · exact ⟨["cam1_left", "cam0_left"], rfl, rfl⟩
          · exact absurd h3 (by simp))
      rfl⟩

/-- Counterexample to C8 as stated: a trajectory whose second step
carries an extra camera (`cam2`) selected as the exterior image; the
resize pass iterates only over the first step's image keys, so
`cam2_left` is emitted unresized and some emitted step violates the
configured image shape, while the episode is still emitted. -/
theorem claim8_counterexample :
    isEmitted (_parse_example cfg0 loadExtraCamera "ep") = true ∧
    (resultSteps (_parse_example cfg0 loadExtraCamera "ep")).all
      (fun s => stepImagesHaveShape s cfg0.image_res.1 cfg0.image_res.2) =
      false :=
  ⟨rfl, rfl⟩

end LirisFold
